import Mathlib

/-!
Verification development for `scripts/vibevoice-tts.py`.

Python strings are modelled as lists of Unicode code points (`List Nat`).
Lowercasing is modelled on the ASCII range, which covers every voice key and
input appearing in the script and its spec. Filesystem and library effects
(directory scan, model loading, audio saving, the external encoder) are
modelled by passing their observable outcomes as explicit parameters.
-/

/-- Python strings as lists of Unicode code points. -/
abbrev PyStr : Type := List Nat

/-- Converts a Lean string literal to the code-point model, for stating
concrete instances. -/
def str (s : String) : PyStr := s.data.map Char.toNat

/-- Model of `str.lower` on one code point (ASCII letters; other code points
are left unchanged, which covers every string the script manipulates). -/
def lowerChar (c : Nat) : Nat := if 65 ≤ c ∧ c ≤ 90 then c + 32 else c

/-- Model of `str.lower`. -/
def pyLower (s : PyStr) : PyStr := s.map lowerChar

/-- Python whitespace characters stripped by `str.strip`. -/
def isPySpace (c : Nat) : Bool := c == 32 || c == 9 || c == 10 || c == 13 || c == 11 || c == 12

/-- Model of `str.strip`: drop whitespace from both ends. -/
def pyStrip (s : PyStr) : PyStr :=
  ((s.dropWhile isPySpace).reverse.dropWhile isPySpace).reverse

/-- Model of the Python substring test `a in b`. -/
def isSubstrOf (a b : PyStr) : Bool :=
  match b with
  | [] => List.isEmpty a
  | _ :: bs => List.isPrefixOf a b || isSubstrOf a bs

/-- The voice registry: a Python dict as an ordered association list
(iteration order is list order, keys unique when built by `discover_voices`). -/
abbrev Registry : Type := List (PyStr × PyStr)

/-- Model of `lower in voices` / `voices[lower]`: first-match lookup. -/
def lookupDict (d : Registry) (k : PyStr) : Option PyStr :=
  match d with
  | [] => none
  | kv :: rest => if kv.1 = k then some kv.2 else lookupDict rest k

/-- Model of `key.split("_")[0]`: the segment before the first underscore. -/
def baseOf (key : PyStr) : PyStr := key.takeWhile (fun c => !(c == 95))

/-- Model of `base.split("-")[-1] if "-" in base else base`: the segment
after the last hyphen of the base (the whole base when it has no hyphen). -/
def shortOf (key : PyStr) : PyStr :=
  let base := baseOf key
  if base.contains 45 then ((base.reverse.takeWhile (fun c => !(c == 45))).reverse) else base

/-- Diagnostic messages `resolve_voice` prints to stderr. -/
inductive Warning where
  | multipleMatches (name : PyStr) (candidates : List PyStr)
  | noMatchDefault (name : PyStr) (usedKey : PyStr)
  | noMatchFallback (name : PyStr) (usedPath : PyStr)
deriving DecidableEq

/-- Model of `resolve_voice`. The first component is the returned path,
`none` meaning the call raises (the `list(voices.values())[0]` indexing on an
empty registry); the second component is the list of warnings printed. -/
def lowerName (name : PyStr) : PyStr := pyStrip (pyLower name)

/-- The predicate of the convenience loop: the lowered input equals the
short or the base form of the key (in the order the code tests them). -/
def convMatch (lower : PyStr) (kv : PyStr × PyStr) : Bool :=
  lower == shortOf kv.1 || lower == baseOf kv.1

/-- The predicate of the partial-match step: the lowered input is a
substring of the key or the key a substring of the lowered input. -/
def subMatch (lower : PyStr) (kv : PyStr × PyStr) : Bool :=
  isSubstrOf lower kv.1 || isSubstrOf kv.1 lower

/-- The `startswith("en-")` predicate of the default-voice loop. -/
def enMatch (kv : PyStr × PyStr) : Bool := List.isPrefixOf (str "en-") kv.1

def resolve_voice (name : PyStr) (voices : Registry) : Option PyStr × List Warning :=
  match lookupDict voices (lowerName name) with
  | some p => (some p, [])
  | none =>
    match voices.find? (convMatch (lowerName name)) with
    | some kv => (some kv.2, [])
    | none =>
      match voices.filter (subMatch (lowerName name)) with
      | [m] => (some m.2, [])
      | m :: b :: rest =>
        (some m.2, [Warning.multipleMatches name ((m :: b :: rest).map Prod.fst)])
      | [] =>
        match voices.find? enMatch with
        | some kv => (some kv.2, [Warning.noMatchDefault name kv.1])
        | none =>
          match (voices.map Prod.snd).head? with
          | some p => (some p, [Warning.noMatchFallback name p])
          | none => (none, [])

/-- Model of `os.path.basename` on POSIX: the part after the last slash. -/
def basenameOf (p : PyStr) : PyStr :=
  (p.reverse.takeWhile (fun c => !(c == 47))).reverse

/-- Model of `os.path.splitext(b)[0]`: everything before the last dot,
unless every character before the last dot is itself a dot (then the whole
name, matching CPython, e.g. the stem of ".pt" is ".pt"). -/
def stemOf (b : PyStr) : PyStr :=
  let root := ((b.reverse.dropWhile (fun c => !(c == 46))).drop 1).reverse
  if b.contains 46 && root.any (fun c => !(c == 46)) then root else b

/-- Dict assignment `voices[name] = path`: replace in place if the key is
present (keeping its position, as CPython dicts do), else append. -/
def dictInsert (d : Registry) (k v : PyStr) : Registry :=
  if d.any (fun kv => kv.1 = k) then d.map (fun kv => if kv.1 = k then (k, v) else kv)
  else d ++ [(k, v)]

/-- Lexicographic order on code-point strings, as Python compares strings. -/
def leStr : PyStr → PyStr → Bool
  | [], _ => true
  | _ :: _, [] => false
  | a :: as, b :: bs => if a < b then true else if b < a then false else leStr as bs

/-- Inserts a pair into a key-sorted registry, keeping it sorted. -/
def insertByKey (p : PyStr × PyStr) : Registry → Registry
  | [] => [p]
  | q :: qs => if leStr p.1 q.1 then p :: q :: qs else q :: insertByKey p qs

/-- Model of `dict(sorted(voices.items()))`: the pairs in ascending key
order (keys are unique, so sorting the pairs is sorting by key). -/
def sortByKey (d : Registry) : Registry := d.foldr insertByKey []

/-- Model of `discover_voices`. The directory scan is passed in as data:
`dirOk` is whether the voices directory exists, `ptFiles` the paths the
recursive glob for `*.pt` returned, and `absPath` stands for
`os.path.abspath`. For each file the key is the lowercased stem of its
basename and the value its absolute path; the dict is then sorted. -/
def discover_voices (dirOk : Bool) (absPath : PyStr → PyStr) (ptFiles : List PyStr) : Registry :=
  if !dirOk then []
  else sortByKey (ptFiles.foldl
    (fun d f => dictInsert d (pyLower (stemOf (basenameOf f))) (absPath f)) [])

/-- Adjacent-pairs sortedness of a registry by key, in the string order. -/
def sortedByKey : Registry → Bool
  | [] => true
  | [_] => true
  | p :: q :: r => leStr p.1 q.1 && sortedByKey (q :: r)

/-- A string with no ASCII uppercase letter (what `.lower()` guarantees). -/
def isLowerStr (s : PyStr) : Bool := s.all (fun c => !(65 ≤ c && c ≤ 90))

/-- An absolute POSIX path: starts with a slash. -/
def isAbsPath (p : PyStr) : Bool := p.headI == 47

-- ── Device selection and model loading (lines 104-154) ──

/-- Compute devices the script can select. -/
inductive PyDevice where
  | cuda | mps | cpu
deriving DecidableEq

/-- Load precisions the script can select. -/
inductive PyDType where
  | bfloat16 | float32
deriving DecidableEq

/-- Attention implementations the script can select. -/
inductive AttnImpl where
  | flash_attention_2 | sdpa
deriving DecidableEq

/-- A model-construction configuration: device, precision, attention kernel. -/
structure LoadCfg where
  device : PyDevice
  dtype : PyDType
  attn : AttnImpl
deriving DecidableEq

/-- Model of the device-resolution branch: cuda gets bfloat16 and the fused
kernel, mps and cpu get float32 and the generic kernel. -/
def select_device (cudaAvailable mpsAvailable : Bool) : LoadCfg :=
  if cudaAvailable then ⟨PyDevice.cuda, PyDType.bfloat16, AttnImpl.flash_attention_2⟩
  else if mpsAvailable then ⟨PyDevice.mps, PyDType.float32, AttnImpl.sdpa⟩
  else ⟨PyDevice.cpu, PyDType.float32, AttnImpl.sdpa⟩

/-- Model of the `try/except` around `from_pretrained` (lines 129-154).
`attempt cfg` is the outcome of one model construction under configuration
`cfg`. Returns the final outcome and the list of configurations attempted,
in order: on failure with the fused kernel, exactly one retry with `sdpa`
and the same device and dtype; on failure with the generic kernel, the
exception propagates with no retry. -/
def load_model_with_fallback {M E : Type} (attempt : LoadCfg → Except E M)
    (cfg : LoadCfg) : Except E M × List LoadCfg :=
  match attempt cfg with
  | Except.ok m => (Except.ok m, [cfg])
  | Except.error e =>
    if cfg.attn = AttnImpl.flash_attention_2 then
      (attempt ⟨cfg.device, cfg.dtype, AttnImpl.sdpa⟩,
       [cfg, ⟨cfg.device, cfg.dtype, AttnImpl.sdpa⟩])
    else (Except.error e, [cfg])

-- ── Text normalization (line 163) ──

/-- Model of `text.replace(old, new)` for one-character patterns. -/
def replace_char (oldC newC : Nat) (s : PyStr) : PyStr :=
  s.map (fun c => if c = oldC then newC else c)

/-- The per-character effect of the four chained replaces, innermost first:
U+2018 then U+2019 to ASCII 39, U+201C then U+201D to ASCII 34. -/
def clean_char (c : Nat) : Nat :=
  let c1 := if c = 0x2018 then 39 else c
  let c2 := if c1 = 0x2019 then 39 else c1
  let c3 := if c2 = 0x201C then 34 else c2
  if c3 = 0x201D then 34 else c3

/-- Model of `clean_text = text.replace(...)...`: the four smart-quote
replaces applied left to right. -/
def clean_text (s : PyStr) : PyStr :=
  replace_char 0x201D 34 (replace_char 0x201C 34 (replace_char 0x2019 39 (replace_char 0x2018 39 s)))

-- ── Generation output check (lines 182-183) ──

/-- Model of the post-generation check: `speech_outputs` is a Python list
whose elements may be `None`. Raises the runtime error exactly when the
list is empty (falsy) or its first element is `None`; otherwise hands the
first waveform to the save step. -/
def check_speech_outputs {W : Type} (outs : List (Option W)) : Except PyStr W :=
  match outs with
  | [] => Except.error (str "No audio output generated")
  | none :: _ => Except.error (str "No audio output generated")
  | some w :: _ => Except.ok w

-- ── Output saving and transcoding (lines 80-89 and 193-205) ──

/-- Model of `wav_to_ogg_opus`: run ffmpeg; on a nonzero return code raise
with the first 500 characters of its stderr. -/
def wav_to_ogg_opus (returncode : Int) (stderrText : PyStr) : Except PyStr Unit :=
  if returncode ≠ 0 then Except.error (stderrText.take 500) else Except.ok ()

/-- The body of the `try` block of the ogg branch (lines 199-200):
`save_audio` writes the temporary waveform (already created, hence part of
`fs1`), then ffmpeg transcodes it to the output path. `saveOk` is whether
`save_audio` succeeds; `ffmpegCode`/`ffmpegErr` are the encoder outcome. -/
def ogg_try_body (output_path : PyStr) (saveOk : Bool)
    (ffmpegCode : Int) (ffmpegErr : PyStr) (fs1 : List PyStr) :
    Except PyStr Unit × List PyStr :=
  if !saveOk then (Except.error (str "save_audio failed"), fs1)
  else
    match wav_to_ogg_opus ffmpegCode ffmpegErr with
    | Except.ok _ => (Except.ok (), output_path :: fs1)
    | Except.error e => (Except.error e, fs1)

/-- The `finally` block: `if os.path.exists(tmp_wav): os.unlink(tmp_wav)`. -/
def ogg_finally (tmp_wav : PyStr) (fs : List PyStr) : List PyStr :=
  if fs.contains tmp_wav then fs.erase tmp_wav else fs

/-- Model of the save branch of `generate` (lines 193-205), with the
filesystem as the list of existing files. For the ogg format a fresh
temporary file is created (prepended to the filesystem), the `try` body
runs, and the `finally` block removes the temporary file whether or not
the body raised. Any other format is saved directly to the output path. -/
def generate_save_output (output_format output_path tmp_wav : PyStr)
    (saveOk : Bool) (ffmpegCode : Int) (ffmpegErr : PyStr)
    (fs0 : List PyStr) : Except PyStr Unit × List PyStr :=
  if pyLower output_format = str "ogg" then
    ((ogg_try_body output_path saveOk ffmpegCode ffmpegErr (tmp_wav :: fs0)).1,
     ogg_finally tmp_wav (ogg_try_body output_path saveOk ffmpegCode ffmpegErr (tmp_wav :: fs0)).2)
  else
    if !saveOk then (Except.error (str "save_audio failed"), fs0)
    else (Except.ok (), output_path :: fs0)

-- ── The voice step of `generate` (lines 120-123) ──

/-- Errors of the voice step of `generate`. -/
inductive GenError where
  | noVoiceFiles
  | resolveRaised
deriving DecidableEq

/-- Model of lines 120-123 of `generate`: raise `FileNotFoundError` when
discovery produced an empty registry, otherwise resolve the voice name
(`resolveRaised` stands for an exception escaping `resolve_voice`). -/
def generate_voice_step (voice_name : PyStr) (voices : Registry) : Except GenError PyStr :=
  if voices.isEmpty then Except.error GenError.noVoiceFiles
  else
    match (resolve_voice voice_name voices).1 with
    | some p => Except.ok p
    | none => Except.error GenError.resolveRaised

-- ── The claimed form of the convenience base (used only to state C3) ──

/-- The base form as the spec sentence describes it: the key with the
segment after the LAST underscore stripped (the whole key when it has no
underscore). This follows the claim wording, not the code; the code takes
the segment before the FIRST underscore. -/
def specBaseOf (key : PyStr) : PyStr :=
  if key.contains 95 then ((key.reverse.dropWhile (fun c => !(c == 95))).drop 1).reverse
  else key

-- ── Helper lemmas ──

lemma lookupDict_mem_values {d : Registry} {k v : PyStr} (h : lookupDict d k = some v) :
    v ∈ d.map Prod.snd := by
  induction d with
  | nil => simp [lookupDict] at h
  | cons kv rest ih =>
    rw [lookupDict] at h
    split at h
    · simp at h; simp [h]
    · simp [ih h]

lemma resolve_voice_returns_value (name : PyStr) (voices : Registry) (h : voices ≠ []) :
    ∃ p, (resolve_voice name voices).1 = some p ∧ p ∈ voices.map Prod.snd := by
  unfold resolve_voice
  cases hlk : lookupDict voices (lowerName name) with
  | some p => exact ⟨p, rfl, lookupDict_mem_values hlk⟩
  | none =>
    simp only [hlk]
    cases hcv : voices.find? (convMatch (lowerName name)) with
    | some kv =>
      exact ⟨kv.2, rfl, List.mem_map_of_mem Prod.snd (List.mem_of_find?_eq_some hcv)⟩
    | none =>
      simp only [hcv]
      cases hfl : voices.filter (subMatch (lowerName name)) with
      | cons m rest =>
        have hmem : m ∈ voices := by
          have : m ∈ voices.filter (subMatch (lowerName name)) := by
            rw [hfl]; exact List.mem_cons_self _ _
          exact (List.mem_filter.mp this).1
        cases rest with
        | nil => exact ⟨m.2, rfl, List.mem_map_of_mem Prod.snd hmem⟩
        | cons b rest2 => exact ⟨m.2, rfl, List.mem_map_of_mem Prod.snd hmem⟩
      | nil =>
        simp only [hfl]
        cases hen : voices.find? enMatch with
        | some kv =>
          exact ⟨kv.2, rfl, List.mem_map_of_mem Prod.snd (List.mem_of_find?_eq_some hen)⟩
        | none =>
          simp only [hen]
          cases voices with
          | nil => exact absurd rfl h
          | cons v vs => exact ⟨v.2, rfl, List.mem_map_of_mem Prod.snd (List.mem_cons_self _ _)⟩

lemma mem_insertByKey {kv p : PyStr × PyStr} {l : Registry} :
    kv ∈ insertByKey p l ↔ kv = p ∨ kv ∈ l := by
  induction l with
  | nil => simp [insertByKey]
  | cons q qs ih =>
    rw [insertByKey]
    split
    · simp
    · simp only [List.mem_cons, ih]
      tauto

lemma mem_sortByKey {kv : PyStr × PyStr} {d : Registry} :
    kv ∈ sortByKey d ↔ kv ∈ d := by
  induction d with
  | nil => simp [sortByKey]
  | cons p ps ih =>
    show kv ∈ insertByKey p (sortByKey ps) ↔ _
    rw [mem_insertByKey, ih]
    simp

lemma mem_dictInsert {kv : PyStr × PyStr} {d : Registry} {k v : PyStr}
    (h : kv ∈ dictInsert d k v) : kv ∈ d ∨ kv = (k, v) := by
  rw [dictInsert] at h
  split at h
  · rcases List.mem_map.mp h with ⟨kv0, hkv0, heq⟩
    by_cases hk : kv0.1 = k
    · right; rw [if_pos hk] at heq; exact heq.symm
    · left; rw [if_neg hk] at heq; exact heq ▸ hkv0
  · rcases List.mem_append.mp h with h1 | h1
    · exact Or.inl h1
    · simp at h1; exact Or.inr h1

lemma foldl_dictInsert_pred (P : PyStr × PyStr → Prop) (keyF valF : PyStr → PyStr) :
    ∀ (files : List PyStr) (acc : Registry),
      (∀ kv ∈ acc, P kv) → (∀ f ∈ files, P (keyF f, valF f)) →
      ∀ kv ∈ files.foldl (fun d f => dictInsert d (keyF f) (valF f)) acc, P kv := by
  intro files
  induction files with
  | nil => intro acc hacc _ kv hkv; exact hacc kv hkv
  | cons f fs ih =>
    intro acc hacc hfiles kv hkv
    refine ih (dictInsert acc (keyF f) (valF f)) ?_ (fun g hg => hfiles g (List.mem_cons_of_mem _ hg)) kv hkv
    intro kv2 hkv2
    rcases mem_dictInsert hkv2 with h1 | h1
    · exact hacc kv2 h1
    · exact h1 ▸ hfiles f (List.mem_cons_self _ _)

lemma leStr_total (a b : PyStr) : leStr a b = true ∨ leStr b a = true := by
  induction a generalizing b with
  | nil => left; rfl
  | cons x xs ih =>
    cases b with
    | nil => right; rfl
    | cons y ys =>
      rw [leStr, leStr]
      rcases Nat.lt_trichotomy x y with h | h | h
      · left; simp [h, Nat.not_lt.mpr (Nat.le_of_lt h)]
      · subst h; simpa [Nat.lt_irrefl] using ih ys
      · right; simp [h, Nat.not_lt.mpr (Nat.le_of_lt h)]

lemma sortedByKey_insertByKey (p : PyStr × PyStr) (l : Registry)
    (h : sortedByKey l = true) : sortedByKey (insertByKey p l) = true := by
  induction l with
  | nil => rfl
  | cons q qs ih =>
    rw [insertByKey]
    split
    · next hle => rw [sortedByKey]; simp [hle, h]
    · next hle =>
      have hqp : leStr q.1 p.1 = true := by
        rcases leStr_total p.1 q.1 with h1 | h1
        · exact absurd h1 hle
        · exact h1
      cases qs with
      | nil => simp [insertByKey, sortedByKey, hqp]
      | cons r rs =>
        rw [sortedByKey, Bool.and_eq_true] at h
        obtain ⟨hqr, hrs⟩ := h
        have hrec : sortedByKey (insertByKey p (r :: rs)) = true := ih hrs
        by_cases hpr : leStr p.1 r.1 = true
        · rw [insertByKey, if_pos hpr] at hrec ⊢
          rw [sortedByKey]
          simp [hqp, hrec]
        · rw [insertByKey, if_neg hpr] at hrec ⊢
          rw [sortedByKey]
          simp [hqr, hrec]

lemma sortedByKey_sortByKey (d : Registry) : sortedByKey (sortByKey d) = true := by
  induction d with
  | nil => rfl
  | cons p ps ih => exact sortedByKey_insertByKey p (sortByKey ps) ih

lemma isLowerStr_pyLower (s : PyStr) : isLowerStr (pyLower s) = true := by
  rw [isLowerStr, pyLower, List.all_map, List.all_eq_true]
  intro c _
  simp only [Function.comp, lowerChar]
  split
  · next hc => simp; omega
  · next hc => simp; omega

lemma clean_text_eq_map (s : PyStr) : clean_text s = s.map clean_char := by
  simp only [clean_text, replace_char, List.map_map]
  rfl

lemma clean_char_of_not_smart (c : Nat) (h1 : c ≠ 0x2018) (h2 : c ≠ 0x2019)
    (h3 : c ≠ 0x201C) (h4 : c ≠ 0x201D) : clean_char c = c := by
  simp [clean_char, h1, h2, h3, h4]

lemma clean_char_idem (c : Nat) : clean_char (clean_char c) = clean_char c := by
  by_cases h1 : c = 0x2018
  · subst h1; decide
  by_cases h2 : c = 0x2019
  · subst h2; decide
  by_cases h3 : c = 0x201C
  · subst h3; decide
  by_cases h4 : c = 0x201D
  · subst h4; decide
  rw [clean_char_of_not_smart c h1 h2 h3 h4]
  exact clean_char_of_not_smart c h1 h2 h3 h4

-- ── Claim theorems ──

/-- C1: for every non-empty voice registry and every input name,
`resolve_voice` returns a path that is an element of the value set of the
registry; it never raises and never returns a string absent from the
values. -/
theorem c1_resolve_voice_total (name : PyStr) (voices : Registry) (h : voices ≠ []) :
    ∃ p, (resolve_voice name voices).1 = some p ∧ p ∈ voices.map Prod.snd :=
  resolve_voice_returns_value name voices h

/-- C1 witness: a concrete non-empty registry and an input matching
nothing still yield a path from the value set. -/
theorem c1_resolve_voice_total_witness :
    ∃ p, (resolve_voice (str "nobody") [(str "de-spk0_man", str "/v/de.pt")]).1 = some p ∧
      p ∈ ([(str "de-spk0_man", str "/v/de.pt")] : Registry).map Prod.snd :=
  c1_resolve_voice_total (str "nobody") [(str "de-spk0_man", str "/v/de.pt")] (by decide)

/-- C2 counterexample: on the registry of the claim, resolving "mike"
returns p1 but prints NO warning at all, refuting the claimed substring
step and multi-match warning: the convenience step already matches
"en-mike_man" (whose short form is "mike") and returns directly. -/
theorem c2_counterexample :
    resolve_voice (str "mike") [(str "en-mike_man", str "/p1"), (str "en-mikeb_man", str "/p2")]
      = (some (str "/p1"), []) := by decide

/-- C2 amended: for the registry of the claim, the input "mike" is matched
by the convenience step (the short form of "en-mike_man" is "mike"), which
returns the first entry p1 and emits no warning; the substring step is
never reached. -/
theorem c2_amended_convenience_first :
    shortOf (str "en-mike_man") = str "mike" ∧
    List.find? (convMatch (lowerName (str "mike")))
        [(str "en-mike_man", str "/p1"), (str "en-mikeb_man", str "/p2")]
      = some (str "en-mike_man", str "/p1") ∧
    resolve_voice (str "mike") [(str "en-mike_man", str "/p1"), (str "en-mikeb_man", str "/p2")]
      = (some (str "/p1"), []) := by decide

/-- C3 counterexample: the claim says the base form strips the segment
after the LAST underscore; the code strips at the FIRST underscore. For the
key "b_b_c" the claimed base form is "b_b", so the claim requires the input
"b_b" to resolve to that entry, but the code resolves it to the other
entry of the registry via the substring step. -/
theorem c3_counterexample :
    specBaseOf (str "b_b_c") = str "b_b" ∧
    (resolve_voice (str "b_b") [(str "abb_bz", str "/p2"), (str "b_b_c", str "/p1")]).1
      = some (str "/p2") ∧
    str "/p2" ≠ str "/p1" := by decide

/-- C3 amended: the base form is the segment before the FIRST underscore
and the short form the segment after the last hyphen of the base; when no
exact match exists and an entry is the first whose base or short form
equals the lowered input, that entry's path is returned. The "en-emma_woman"
instances of the claim hold as stated. -/
theorem c3_convenience_match :
    (∀ (name : PyStr) (voices : Registry) (kv : PyStr × PyStr),
      lookupDict voices (lowerName name) = none →
      voices.find? (convMatch (lowerName name)) = some kv →
      (resolve_voice name voices).1 = some kv.2) ∧
    baseOf (str "en-emma_woman") = str "en-emma" ∧
    shortOf (str "en-emma_woman") = str "emma" ∧
    (resolve_voice (str "Emma") [(str "en-emma_woman", str "/v/e.pt")]).1 = some (str "/v/e.pt") ∧
    (resolve_voice (str "EMMA") [(str "en-emma_woman", str "/v/e.pt")]).1 = some (str "/v/e.pt") ∧
    (resolve_voice (str "en-emma") [(str "en-emma_woman", str "/v/e.pt")]).1 = some (str "/v/e.pt") := by
  refine ⟨?_, by decide, by decide, by decide, by decide, by decide⟩
  intro name voices kv hx hc
  unfold resolve_voice
  rw [hx, hc]

/-- C3 witness: the convenience rule applied at a concrete registry with a
multilingual key. -/
theorem c3_convenience_match_witness :
    (resolve_voice (str "Spk0") [(str "de-spk0_man", str "/v/de.pt")]).1 = some (str "/v/de.pt") :=
  c3_convenience_match.1 (str "Spk0") [(str "de-spk0_man", str "/v/de.pt")]
    (str "de-spk0_man", str "/v/de.pt") (by decide) (by decide)

/-- C4 counterexample: the code compares `name.lower().strip()`, not just a
case-insensitive form. With the lowercase sorted registry built by
`discover_voices` from files "b .pt" and "b_x.pt", the input "b " equals
the registry key "b " verbatim (hence case-insensitively), yet
`resolve_voice` strips the trailing space and the convenience step matches
the OTHER key "b_x" (whose base form is "b"), returning its path. -/
theorem c4_counterexample :
    discover_voices true (fun q => q) [str "/v/b .pt", str "/v/b_x.pt"]
      = [(str "b ", str "/v/b .pt"), (str "b_x", str "/v/b_x.pt")] ∧
    isLowerStr (str "b ") = true ∧ isLowerStr (str "b_x") = true ∧
    pyLower (str "b ") = str "b " ∧
    (resolve_voice (str "b ") [(str "b ", str "/v/b .pt"), (str "b_x", str "/v/b_x.pt")]).1
      = some (str "/v/b_x.pt") ∧
    str "/v/b_x.pt" ≠ str "/v/b .pt" := by decide

/-- C4 amended: for every registry and input name, if the input lowercased
and stripped of surrounding whitespace equals a registry key, then
`resolve_voice` returns exactly that key's path (the path of its first
occurrence; keys are unique in a registry built by `discover_voices`),
regardless of what other entries the registry contains. -/
theorem c4_exact_match (name : PyStr) (voices : Registry) (p : PyStr)
    (h : lookupDict voices (lowerName name) = some p) :
    (resolve_voice name voices).1 = some p := by
  unfold resolve_voice
  rw [h]

/-- C4 witness: a mixed-case input with surrounding whitespace resolves to
the exactly matching key's path. -/
theorem c4_exact_match_witness :
    (resolve_voice (str " Emma") [(str "emma", str "/v/emma.pt"), (str "emma2", str "/v/e2.pt")]).1
      = some (str "/v/emma.pt") :=
  c4_exact_match (str " Emma") [(str "emma", str "/v/emma.pt"), (str "emma2", str "/v/e2.pt")]
    (str "/v/emma.pt") (by decide)

/-- C10: on the empty registry `resolve_voice` raises (returns no path:
the absolute-fallback indexing fails), `generate` raises its
file-not-found error before ever calling `resolve_voice` when discovery
is empty, and on any non-empty registry the voice step of `generate`
succeeds, so the raising case is unreachable from `generate`. -/
theorem c10_empty_registry_guard :
    (∀ name : PyStr, (resolve_voice name []).1 = none) ∧
    (∀ name : PyStr, generate_voice_step name [] = Except.error GenError.noVoiceFiles) ∧
    (∀ (name : PyStr) (voices : Registry), voices ≠ [] →
      ∃ p, generate_voice_step name voices = Except.ok p) := by
  refine ⟨fun name => rfl, fun name => rfl, fun name voices h => ?_⟩
  obtain ⟨p, hp, _⟩ := resolve_voice_returns_value name voices h
  refine ⟨p, ?_⟩
  have hne : voices.isEmpty = false := by
    cases voices with
    | nil => exact absurd rfl h
    | cons v vs => rfl
  rw [generate_voice_step, hne]
  simp [hp]

/-- C10 witness: the non-empty case at a concrete registry. -/
theorem c10_empty_registry_guard_witness :
    ∃ p, generate_voice_step (str "x") [(str "a", str "/p")] = Except.ok p :=
  c10_empty_registry_guard.2.2 (str "x") [(str "a", str "/p")] (by decide)

/-- C5: if the fused kernel was selected and construction fails, exactly
one retry is made with the generic kernel preserving device and precision,
and the retry's outcome (including a second failure) is final; if the
generic kernel was selected, any failure propagates with no retry. -/
theorem c5_load_retry {M E : Type} (attempt : LoadCfg → Except E M) (cfg : LoadCfg) (e : E) :
    (cfg.attn = AttnImpl.flash_attention_2 → attempt cfg = Except.error e →
      (load_model_with_fallback attempt cfg).2
          = [cfg, ⟨cfg.device, cfg.dtype, AttnImpl.sdpa⟩] ∧
      (load_model_with_fallback attempt cfg).1
          = attempt ⟨cfg.device, cfg.dtype, AttnImpl.sdpa⟩) ∧
    (cfg.attn = AttnImpl.sdpa → attempt cfg = Except.error e →
      load_model_with_fallback attempt cfg = (Except.error e, [cfg])) ∧
    (∀ e2 : E, cfg.attn = AttnImpl.flash_attention_2 → attempt cfg = Except.error e →
      attempt ⟨cfg.device, cfg.dtype, AttnImpl.sdpa⟩ = Except.error e2 →
      (load_model_with_fallback attempt cfg).1 = Except.error e2) := by
  refine ⟨fun ha he => ?_, fun ha he => ?_, fun e2 ha he he2 => ?_⟩
  · unfold load_model_with_fallback
    simp [he, ha]
  · unfold load_model_with_fallback
    simp [he, ha]
  · unfold load_model_with_fallback
    simp [he, ha, he2]

/-- C5 witness: under cuda the fused kernel is selected; with a
construction oracle that always fails, the trace is exactly one retry with
sdpa at the same device and precision, and the final outcome is the
retry's failure. -/
theorem c5_load_retry_witness :
    (load_model_with_fallback (fun _ : LoadCfg => (Except.error 5 : Except Nat Nat))
        (select_device true false)).2
      = [⟨PyDevice.cuda, PyDType.bfloat16, AttnImpl.flash_attention_2⟩,
         ⟨PyDevice.cuda, PyDType.bfloat16, AttnImpl.sdpa⟩] ∧
    (load_model_with_fallback (fun _ : LoadCfg => (Except.error 5 : Except Nat Nat))
        (select_device true false)).1 = Except.error 5 := by
  have h := (c5_load_retry (fun _ : LoadCfg => (Except.error 5 : Except Nat Nat))
    (select_device true false) 5).1 rfl rfl
  exact ⟨h.1, h.2⟩

/-- C6: for the ogg format the waveform goes through a temporary file that
is removed by the `finally` block in every case — transcoding success,
transcoding failure, and even a save failure — so no leftover temporary
waveform exists afterwards; on success the output file exists and the
call returns without error. -/
theorem c6_ogg_tmp_cleanup (ofmt outp tmpw : PyStr) (saveOk : Bool) (code : Int)
    (err : PyStr) (fs0 : List PyStr)
    (hfmt : pyLower ofmt = str "ogg") (hnew : tmpw ∉ fs0) (hne : tmpw ≠ outp) :
    tmpw ∉ (generate_save_output ofmt outp tmpw saveOk code err fs0).2 ∧
    (saveOk = true → code = 0 →
      (generate_save_output ofmt outp tmpw saveOk code err fs0).1 = Except.ok () ∧
      outp ∈ (generate_save_output ofmt outp tmpw saveOk code err fs0).2) := by
  rw [generate_save_output, if_pos hfmt]
  cases saveOk with
  | false =>
    refine ⟨?_, fun hcon _ => by cases hcon⟩
    simp [ogg_try_body, ogg_finally, hnew]
  | true =>
    by_cases hcode : code = 0
    · subst hcode
      have hbody : ogg_try_body outp true 0 err (tmpw :: fs0)
          = (Except.ok (), outp :: tmpw :: fs0) := by
        simp [ogg_try_body, wav_to_ogg_opus]
      rw [hbody]
      have hfin : ogg_finally tmpw (outp :: tmpw :: fs0) = outp :: fs0 := by
        simp [ogg_finally, List.erase_cons, hne.symm]
      rw [hfin]
      refine ⟨?_, fun _ _ => ⟨rfl, List.mem_cons_self _ _⟩⟩
      simp [hne, hnew]
    · have hbody : ogg_try_body outp true code err (tmpw :: fs0)
          = (Except.error (err.take 500), tmpw :: fs0) := by
        simp [ogg_try_body, wav_to_ogg_opus, hcode]
      rw [hbody]
      have hfin : ogg_finally tmpw (tmpw :: fs0) = fs0 := by
        simp [ogg_finally]
      rw [hfin]
      exact ⟨hnew, fun _ hcon => absurd hcon hcode⟩

/-- C6 witness: a failed transcoding at concrete paths leaves no temporary
file behind. -/
theorem c6_ogg_tmp_cleanup_witness :
    str "/tmp/x.wav" ∉
      (generate_save_output (str "ogg") (str "/out/a.ogg") (str "/tmp/x.wav")
        true 1 (str "boom") []).2 :=
  (c6_ogg_tmp_cleanup (str "ogg") (str "/out/a.ogg") (str "/tmp/x.wav") true 1 (str "boom") []
    (by decide) (by decide) (by decide)).1

/-- C7: the post-generation check raises the runtime error exactly when
the speech outputs are empty or their first element is null; a leading
non-null waveform is passed on to the save step with no error. -/
theorem c7_no_audio_check {W : Type} (outs : List (Option W)) :
    ((∃ e, check_speech_outputs outs = Except.error e) ↔ outs = [] ∨ outs.head? = some none) ∧
    (∀ (w : W) (rest : List (Option W)), check_speech_outputs (some w :: rest) = Except.ok w) := by
  refine ⟨⟨?_, ?_⟩, fun w rest => rfl⟩
  · rintro ⟨e, he⟩
    cases outs with
    | nil => exact Or.inl rfl
    | cons o os =>
      cases o with
      | none => exact Or.inr rfl
      | some w => rw [check_speech_outputs] at he; cases he
  · intro h
    rcases h with h | h
    · subst h; exact ⟨str "No audio output generated", rfl⟩
    · cases outs with
      | nil => cases h
      | cons o os =>
        simp only [List.head?_cons, Option.some_inj] at h
        subst h
        exact ⟨str "No audio output generated", rfl⟩

/-- C7 witness: the error case at the concrete empty output list. -/
theorem c7_no_audio_check_witness :
    ∃ e, check_speech_outputs ([] : List (Option Nat)) = Except.error e :=
  (c7_no_audio_check ([] : List (Option Nat))).1.mpr (Or.inl rfl)

/-- C8: text normalization acts pointwise, maps each of the four smart
quotes to its ASCII counterpart, changes no other character, is
idempotent, and leaves any string without smart quotes unchanged. -/
theorem c8_clean_text_normalization :
    (∀ s : PyStr, clean_text s = s.map clean_char) ∧
    (clean_char 0x2018 = 39 ∧ clean_char 0x2019 = 39 ∧
     clean_char 0x201C = 34 ∧ clean_char 0x201D = 34) ∧
    (∀ c : Nat, c ≠ 0x2018 → c ≠ 0x2019 → c ≠ 0x201C → c ≠ 0x201D → clean_char c = c) ∧
    (∀ s : PyStr, clean_text (clean_text s) = clean_text s) ∧
    (∀ s : PyStr, (∀ c ∈ s, c ≠ 0x2018 ∧ c ≠ 0x2019 ∧ c ≠ 0x201C ∧ c ≠ 0x201D) →
      clean_text s = s) := by
  refine ⟨clean_text_eq_map, by decide, clean_char_of_not_smart, ?_, ?_⟩
  · intro s
    rw [clean_text_eq_map, clean_text_eq_map, List.map_map]
    induction s with
    | nil => rfl
    | cons c cs ih => simp [Function.comp, clean_char_idem, ih]
  · intro s hs
    rw [clean_text_eq_map]
    induction s with
    | nil => rfl
    | cons c cs ih =>
      obtain ⟨h1, h2, h3, h4⟩ := hs c (List.mem_cons_self _ _)
      simp only [List.map_cons, clean_char_of_not_smart c h1 h2 h3 h4]
      rw [ih (fun d hd => hs d (List.mem_cons_of_mem _ hd))]

/-- C8 witness: the hypothesis-bearing parts applied at concrete inputs. -/
theorem c8_clean_text_normalization_witness :
    clean_char 97 = 97 ∧ clean_text (str "plain text") = str "plain text" :=
  ⟨c8_clean_text_normalization.2.2.1 97 (by decide) (by decide) (by decide) (by decide),
   c8_clean_text_normalization.2.2.2.2 (str "plain text") (by decide)⟩

/-- C9: every entry of the registry built by `discover_voices` is the
lowercased stem of a scanned file paired with its absolute path (so keys
are lowercase and values absolute, given that the `abspath` primitive
returns absolute paths), the registry is sorted by key, and a missing
directory or an empty scan yields the empty registry. -/
theorem c9_discover_voices_registry (dirOk : Bool) (absPath : PyStr → PyStr)
    (files : List PyStr) (habs : ∀ f : PyStr, isAbsPath (absPath f) = true) :
    (∀ kv ∈ discover_voices dirOk absPath files,
      (∃ f ∈ files, kv = (pyLower (stemOf (basenameOf f)), absPath f)) ∧
      isLowerStr kv.1 = true ∧ isAbsPath kv.2 = true) ∧
    sortedByKey (discover_voices dirOk absPath files) = true ∧
    discover_voices false absPath files = [] ∧
    discover_voices dirOk absPath [] = [] := by
  refine ⟨?_, ?_, rfl, ?_⟩
  · intro kv hkv
    cases dirOk with
    | false => cases hkv
    | true =>
      rw [discover_voices] at hkv
      have hkv2 := mem_sortByKey.mp hkv
      have hall := foldl_dictInsert_pred
        (fun q => ∃ f ∈ files, q = (pyLower (stemOf (basenameOf f)), absPath f))
        (fun f => pyLower (stemOf (basenameOf f))) absPath files []
        (by intro q hq; cases hq) (fun f hf => ⟨f, hf, rfl⟩) kv hkv2
      obtain ⟨f, hf, hkveq⟩ := hall
      subst hkveq
      exact ⟨⟨f, hf, rfl⟩, isLowerStr_pyLower _, habs f⟩
  · cases dirOk with
    | false => rfl
    | true =>
      rw [discover_voices]
      exact sortedByKey_sortByKey _
  · cases dirOk with
    | false => rfl
    | true => rfl

/-- C9 witness: a concrete scan of two files yields a sorted lowercase
registry of absolute paths. -/
theorem c9_discover_voices_registry_witness :
    sortedByKey (discover_voices true (fun _ => str "/abs/v.pt")
      [str "/v/Emma.pt", str "/v/Carter.pt"]) = true ∧
    discover_voices false (fun _ => str "/abs/v.pt") [str "/v/Emma.pt", str "/v/Carter.pt"] = [] := by
  have h := c9_discover_voices_registry true (fun _ => str "/abs/v.pt")
    [str "/v/Emma.pt", str "/v/Carter.pt"] (fun _ => rfl)
  exact ⟨h.2.1, h.2.2.1⟩
